import Mathlib

/-!
Verification of the git-wt worktree tooling.

This file gives a shallow embedding, in Lean 4, of the pure cores of the
program:

* `internal/naming` — the branch-name sanitizer (`Sanitize`) and the
  worktree path resolver (`GenerateWorktreePathWithConfig`,
  `generateUniquePathInSubdir`);
* `internal/selectx` — the numbered fallback selector (`SelectWithPrompt`),
  the fzf-delegating selector (`SelectWithFzf`), and the query filter
  (`FilterByQuery`).

Go strings are modelled as Lean `String` / `List Char` (the Go code works
rune-wise at every point these claims touch, and after sanitization all
characters are ASCII, so byte length and rune length agree where `len` is
used).  Filesystem state is modelled as a predicate `occ : String → Bool`
("this path exists"), and the user-facing I/O of the selectors is modelled
by passing the line read from stdin (resp. the external program's outcome)
as an explicit argument.
-/

/-! ## Modelling Go library functions -/

/-- Models Go `filepath.Join` for clean, non-empty components: the
non-empty parts joined by "/". -/
def filepathJoin (parts : List String) : String :=
  String.intercalate "/" (parts.filter (fun p => p ≠ ""))

/-! ## `internal/naming` — the sanitizer (`Sanitize` in the source)

The Go source pipeline is:
1. `strings.ReplaceAll(branchName, "/", "-")`
2. `invalidCharsRegex.ReplaceAllString(s, "-")` with regex
   `[^A-Za-z0-9._-]+` (a maximal run of disallowed runes becomes one "-")
3. `multiHyphenRegex.ReplaceAllString(s, "-")` with regex `-+`
4. `strings.Trim(s, "-")`
5. if `len(s) > 200` then `s = s[:200]; s = strings.TrimRight(s, "-")`.
-/

/-- The character class `[A-Za-z0-9._-]` of `invalidCharsRegex`. -/
def isAllowedChar (c : Char) : Bool :=
  ('A' ≤ c && c ≤ 'Z') || ('a' ≤ c && c ≤ 'z') || ('0' ≤ c && c ≤ '9') ||
    c == '.' || c == '_' || c == '-'

/-- Step 1: `strings.ReplaceAll(branchName, "/", "-")`, rune-wise. -/
def slashToHyphen (l : List Char) : List Char :=
  l.map (fun c => if c = '/' then '-' else c)

/-- Step 2: `invalidCharsRegex.ReplaceAllString(s, "-")`.  The flag records
whether we are inside a run of disallowed characters (the run as a whole
was already replaced by a single '-'). -/
def replaceInvalidRuns : Bool → List Char → List Char
  | _, [] => []
  | inRun, c :: rest =>
    if isAllowedChar c then c :: replaceInvalidRuns false rest
    else if inRun then replaceInvalidRuns true rest
    else '-' :: replaceInvalidRuns true rest

/-- Step 3: `multiHyphenRegex.ReplaceAllString(s, "-")`: a maximal run of
hyphens becomes a single hyphen.  The flag records whether the previous
character was a hyphen. -/
def collapseHyphens : Bool → List Char → List Char
  | _, [] => []
  | prevHyphen, c :: rest =>
    if c = '-' then
      if prevHyphen then collapseHyphens true rest
      else '-' :: collapseHyphens true rest
    else c :: collapseHyphens false rest

/-- Models `strings.TrimLeft(s, "-")`. -/
def trimHyphensLeft (l : List Char) : List Char :=
  l.dropWhile (fun c => c = '-')

/-- Models `strings.TrimRight(s, "-")`. -/
def trimHyphensRight (l : List Char) : List Char :=
  (l.reverse.dropWhile (fun c => c = '-')).reverse

/-- Step 4: `strings.Trim(s, "-")`. -/
def trimHyphens (l : List Char) : List Char :=
  trimHyphensRight (trimHyphensLeft l)

/-- The `maxLength` constant of the source ("Conservative limit for safety"). -/
def maxLength : Nat := 200

/-- The sanitizer pipeline on character lists. -/
def sanitizeList (l : List Char) : List Char :=
  let s1 := slashToHyphen l
  let s2 := replaceInvalidRuns false s1
  let s3 := collapseHyphens false s2
  let s4 := trimHyphens s3
  if s4.length > maxLength then trimHyphensRight (s4.take maxLength) else s4

/-- The function `Sanitize` from `internal/naming`: converts a branch name to a
filesystem-safe directory name. -/
def Sanitize (s : String) : String :=
  String.mk (sanitizeList s.data)


/-! ## `internal/config` — the configuration record

Field `SubdirectoryPfx` models the source field `SubdirectoryPrefix`. -/

/-- The constant `config.DirectoryFormatSubdirectory`. -/
def DirectoryFormatSubdirectory : String := "subdirectory"

/-- The constant `config.DirectoryFormatSibling`. -/
def DirectoryFormatSibling : String := "sibling"

/-- The record `config.WorktreeConfig`. -/
structure WorktreeConfig where
  DirectoryFormat : String
  SubdirectoryPfx : String
  SubdirectorySuffix : String
deriving DecidableEq

/-- The record `config.Config` (the unserialized `path` field is irrelevant here). -/
structure Config where
  Worktree : WorktreeConfig
deriving DecidableEq

/-! ## `internal/naming/path.go` — the path resolver

The filesystem is the predicate `occ : String → Bool` standing for
`pathExists`.  The Go retry loop `for i := 2; i < maxAttempts; i++` is
rendered as structural recursion over the index list
`List.range' 2 (maxAttempts - 2)`, i.e. `[2, …, maxAttempts-1]`. -/

/-- The constant `maxAttempts` of `GenerateWorktreePathWithConfig`. -/
def maxAttempts : Nat := 100

/-- The error message built by `fmt.Errorf("could not generate unique path
after %d attempts", maxAttempts)`. -/
def errAfter (maxA : Nat) : String :=
  "could not generate unique path after " ++ toString maxA ++ " attempts"

/-- The numbered-suffix retry loop shared by both modes: try `mk i` for
each `i` in the list, return the first unoccupied candidate, and fail with
`errAfter maxA` when the list is exhausted. -/
def tryNumbered (occ : String → Bool) (mk : Nat → String) (maxA : Nat) :
    List Nat → Except String String
  | [] => Except.error (errAfter maxA)
  | i :: rest =>
    if occ (mk i) then tryNumbered occ mk maxA rest
    else Except.ok (mk i)

/-- The function `generateUniquePathInSubdir` from `path.go`. -/
def generateUniquePathInSubdir (occ : String → Bool)
    (baseDir worktreeDir branchName : String) (maxA : Nat) :
    Except String String :=
  let candidate := filepathJoin [baseDir, worktreeDir, branchName]
  if occ candidate then
    tryNumbered occ
      (fun i => filepathJoin [baseDir, worktreeDir, branchName ++ "-" ++ toString i])
      maxA (List.range' 2 (maxA - 2))
  else Except.ok candidate

/-- The function `GenerateWorktreePathWithConfig` from `path.go`. -/
def GenerateWorktreePathWithConfig (occ : String → Bool)
    (baseDir repoName sanitizedBranch : String) (cfg : Config) :
    Except String String :=
  if cfg.Worktree.DirectoryFormat = DirectoryFormatSubdirectory then
    generateUniquePathInSubdir occ baseDir
      (cfg.Worktree.SubdirectoryPfx ++ repoName ++ cfg.Worktree.SubdirectorySuffix)
      sanitizedBranch maxAttempts
  else
    let baseName := repoName ++ "-" ++ sanitizedBranch
    let candidate := filepathJoin [baseDir, baseName]
    if occ candidate then
      tryNumbered occ
        (fun i => filepathJoin [baseDir, baseName ++ "-" ++ toString i])
        maxAttempts (List.range' 2 (maxAttempts - 2))
    else Except.ok candidate

/-! ## `internal/selectx/fallback.go` — the numbered fallback selector

`SelectWithPrompt` prints a menu to stderr and reads one line from stdin;
it is modelled as a pure function of the item list, the prompt, and the
line read (`input`, still carrying its newline).  The returned Go pair
`(int, error)` is modelled as `Except String Int` carrying the
`fmt.Errorf` message. -/

/-- Models Go `strings.TrimSpace`, char-wise (Lean's `String.trim` is
defined by well-founded recursion on substrings and does not reduce in the
kernel, so the trim is spelt out on the character list). -/
def goTrimSpace (s : String) : String :=
  String.mk
    (((s.data.dropWhile Char.isWhitespace).reverse.dropWhile
        Char.isWhitespace).reverse)

/-- Models Go `strconv.Atoi`: an optional sign followed by at least one
ASCII digit, the whole string, with the 64-bit range check (out-of-range
input makes `Atoi` return an error, here `none`). -/
def atoi (s : String) : Option Int :=
  let signDigits : Int × List Char :=
    match s.data with
    | '+' :: rest => (1, rest)
    | '-' :: rest => (-1, rest)
    | l => (1, l)
  let sign := signDigits.1
  let digits := signDigits.2
  if digits = [] then none
  else if digits.all (fun c => c.isDigit) then
    let n : Int := sign * (digits.foldl (fun n c => n * 10 + (c.toNat - 48)) 0 : Nat)
    if n < -(2 ^ 63) ∨ 2 ^ 63 - 1 < n then none else some n
  else none

/-- The function `SelectWithPrompt` from `fallback.go`. -/
def SelectWithPrompt (items : List String) (prompt input : String) :
    Except String Int :=
  if items.length = 0 then Except.error "no items to select from"
  else if items.length = 1 then Except.ok 0
  else
    let inp := goTrimSpace input
    if inp = "q" ∨ inp = "Q" ∨ inp = "" then Except.error "selection cancelled"
    else
      match atoi inp with
      | none => Except.error ("invalid input: " ++ inp)
      | some num =>
        if num < 1 ∨ num > items.length then
          Except.error ("number out of range: " ++ toString num ++
            " (expected 1-" ++ toString items.length ++ ")")
        else Except.ok (num - 1)

/-! ## `internal/selectx/fzf.go` — the fzf-delegating selector

`SelectWithFzf` runs the external `fzf` program; the run's outcome (exit
code and captured standard output) is modelled by `FzfOutcome`.  The
branches follow the source: non-zero exit code 130 means user
cancellation, any other non-zero exit is a wrapped failure; on success the
trimmed stdout is looked up among the items by the loop
`for i, item := range items { if item == selected { return i } }`. -/

/-- The observable outcome of running the external fzf process. -/
structure FzfOutcome where
  exitCode : Nat
  stdout : String

/-- The lookup loop of `SelectWithFzf`, with `i` the running index. -/
def findSelected (selected : String) : List String → Nat → Option Nat
  | [], _ => none
  | item :: rest, i =>
    if item = selected then some i else findSelected selected rest (i + 1)

/-- The function `SelectWithFzf` from `fzf.go` (the stderr text attached to the
"fzf failed" error is irrelevant to the claims and elided). -/
def SelectWithFzf (items : List String) (out : FzfOutcome) :
    Except String Nat :=
  if items.length = 0 then Except.error "no items to select from"
  else if out.exitCode ≠ 0 then
    if out.exitCode = 130 then Except.error "selection cancelled"
    else Except.error "fzf failed"
  else
    let selected := goTrimSpace out.stdout
    if selected = "" then Except.error "no selection made"
    else
      match findSelected selected items 0 with
      | some i => Except.ok i
      | none => Except.error "selected item not found in list"

/-! ## `internal/selectx` — the query filter (`FilterByQuery`)

Go `strings.ToLower` is modelled char-wise by `Char.toLower` (faithful on
ASCII, which is all the claims exercise); `strings.HasPrefix` and
`strings.Contains` are modelled on the character lists. -/

/-- The record `FilterItem` from the source. -/
structure FilterItem where
  Index : Nat
  Text : String
  Score : Nat
deriving DecidableEq

/-- Models Go `strings.ToLower`, char-wise. -/
def goToLower (s : String) : String :=
  String.mk (s.data.map Char.toLower)

/-- Models Go `strings.HasPrefix s pre`. -/
def hasPrefixGo (s pre : String) : Bool :=
  pre.data.isPrefixOf s.data

/-- Models Go `strings.Contains s sub`. -/
def containsGo (s sub : String) : Bool :=
  s.data.tails.any (fun t => sub.data.isPrefixOf t)

/-- The body of the `for i, item := range items` loop of `FilterByQuery`:
the first of the three rules the (lowercased) item satisfies decides its
score, and a miss on all three drops the item. -/
def classify (q : String) (i : Nat) (item : String) : Option FilterItem :=
  let lowerItem := goToLower item
  if lowerItem = q then some ⟨i, item, 100⟩
  else if hasPrefixGo lowerItem q then some ⟨i, item, 80⟩
  else if containsGo lowerItem q then some ⟨i, item, 50⟩
  else none

/-- The function `FilterByQuery` from the source.  `List.enum` pairs each item with its
index, as the Go range loop does. -/
def FilterByQuery (items : List String) (query : String) :
    Except String (List FilterItem) :=
  if query = "" then
    Except.ok (items.enum.map (fun p => ⟨p.1, p.2, 0⟩))
  else
    let q := goToLower query
    let matched := items.enum.filterMap (fun p => classify q p.1 p.2)
    if matched.isEmpty then
      Except.error ("no matches found for query: " ++ q)
    else Except.ok matched


/-! ## The spec-side description of the query filter -/

/-- The spec's tier assignment: the first rule the lowercased candidate
satisfies, in the fixed order exact (100), then prefix (80), then
substring (50); `none` when all three rules fail. -/
def tierOf (q item : String) : Option Nat :=
  let l := goToLower item
  if l = q then some 100
  else if hasPrefixGo l q then some 80
  else if containsGo l q then some 50
  else none

/-- The spec's description of the non-empty-query filter, for comparison
with `FilterByQuery`: lowercase the query, keep each candidate whose
`tierOf` is defined (with that tier as its score, original index and text
kept), and fail with the no-matches error when nothing survives. -/
def filterSpecced (items : List String) (query : String) :
    Except String (List FilterItem) :=
  let q := goToLower query
  let survivors := items.enum.filterMap
    (fun p => (tierOf q p.2).map (fun s => (⟨p.1, p.2, s⟩ : FilterItem)))
  if survivors.isEmpty then Except.error ("no matches found for query: " ++ q)
  else Except.ok survivors

/-- No two consecutive hyphens (the property `multiHyphenRegex` enforces). -/
abbrev noDoubleHyphen (l : List Char) : Prop :=
  List.Chain' (fun a b => ¬(a = '-' ∧ b = '-')) l

/-! ## Concrete objects used by the theorems below -/

/-- A filesystem in which every path except `base/p-l-100` exists. -/
def occAllButHundred : String → Bool := fun s => s != "base/p-l-100"

/-- A sibling-mode configuration. -/
def cfgSiblingEx : Config := ⟨⟨DirectoryFormatSibling, ".", "-wt"⟩⟩

/-! ## Helper lemmas for the path resolver -/

/-- When every candidate in the index list is occupied, the retry loop
exhausts and reports the `maxAttempts` failure. -/
theorem tryNumbered_exhaust (occ : String → Bool) (mk : Nat → String)
    (maxA : Nat) :
    ∀ l : List Nat, (∀ i ∈ l, occ (mk i) = true) →
      tryNumbered occ mk maxA l = Except.error (errAfter maxA) := by
  intro l
  induction l with
  | nil => intro _; rfl
  | cons i rest ih =>
    intro h
    simp only [tryNumbered, h i (List.mem_cons_self i rest), if_true]
    exact ih (fun j hj => h j (List.mem_cons_of_mem _ hj))

/-- C1, counterexample: with project "p" and label "l" under "base" in
sibling mode, when the base candidate `base/p-l` and the numbered
candidates `base/p-l-2` … `base/p-l-99` are all occupied and `base/p-l-100`
is free, `GenerateWorktreePathWithConfig` does NOT succeed with the `-100`
candidate: it fails with the max-attempts error.  Sibling mode probes 99
candidates, exactly as subdirectory mode does. -/
theorem sibling_no_hundredth_candidate :
    occAllButHundred "base/p-l" = true ∧
    ((List.range' 2 98).all fun i =>
      occAllButHundred ("base/p-l-" ++ toString i)) = true ∧
    occAllButHundred "base/p-l-100" = false ∧
    GenerateWorktreePathWithConfig occAllButHundred "base" "p" "l" cfgSiblingEx =
      Except.error (errAfter 100) :=
  ⟨rfl, by decide, rfl, rfl⟩

/-- C1, amended: exhaustion is symmetric between modes.  In sibling mode
the resolver probes 99 candidates — the base candidate
`baseDir/<projectName>-<label>` plus the numbered candidates `-2` … `-99` —
and when all of them are occupied it fails with the max-attempts error
(the `-100` candidate is never probed, so its state is irrelevant). -/
theorem sibling_exhaustion_symmetric (occ : String → Bool)
    (baseDir repoName br : String) (cfg : Config)
    (hmode : cfg.Worktree.DirectoryFormat = DirectoryFormatSibling)
    (hbase : occ (filepathJoin [baseDir, repoName ++ "-" ++ br]) = true)
    (hall : ∀ i ∈ List.range' 2 98,
      occ (filepathJoin [baseDir, repoName ++ "-" ++ br ++ "-" ++ toString i]) = true) :
    GenerateWorktreePathWithConfig occ baseDir repoName br cfg =
      Except.error (errAfter 100) := by
  have hne : cfg.Worktree.DirectoryFormat ≠ DirectoryFormatSubdirectory := by
    rw [hmode]; decide
  simp only [GenerateWorktreePathWithConfig, if_neg hne, hbase, if_true]
  exact tryNumbered_exhaust occ _ maxAttempts (List.range' 2 (maxAttempts - 2)) hall

/-- Witness for `sibling_exhaustion_symmetric` on the everywhere-occupied
filesystem. -/
theorem sibling_exhaustion_symmetric_witness :
    GenerateWorktreePathWithConfig (fun _ => true) "base" "p" "l" cfgSiblingEx =
      Except.error (errAfter 100) :=
  sibling_exhaustion_symmetric (fun _ => true) "base" "p" "l" cfgSiblingEx
    rfl rfl (fun _ _ => rfl)

/-- C5: path resolution is deterministic in each mode.  On an empty
filesystem, subdirectory mode with empty prefix and suffix "-wt" maps
("myproject", "feature-login") to `base/myproject-wt/feature-login`; when
exactly that path is occupied the same call yields
`base/myproject-wt/feature-login-2`; sibling mode with the same inputs
yields `base/myproject-feature-login`. -/
theorem resolve_path_deterministic_examples :
    GenerateWorktreePathWithConfig (fun _ => false) "base" "myproject"
        "feature-login" ⟨⟨DirectoryFormatSubdirectory, "", "-wt"⟩⟩ =
      Except.ok "base/myproject-wt/feature-login" ∧
    GenerateWorktreePathWithConfig (fun s => s == "base/myproject-wt/feature-login")
        "base" "myproject" "feature-login"
        ⟨⟨DirectoryFormatSubdirectory, "", "-wt"⟩⟩ =
      Except.ok "base/myproject-wt/feature-login-2" ∧
    GenerateWorktreePathWithConfig (fun _ => false) "base" "myproject"
        "feature-login" ⟨⟨DirectoryFormatSibling, "", "-wt"⟩⟩ =
      Except.ok "base/myproject-feature-login" :=
  ⟨rfl, rfl, rfl⟩

/-- C9: the sanitizer's worked examples: `Sanitize "feature/new-ui"` is
"feature-new-ui" and `Sanitize "evil; rm -rf /"` is "evil-rm-rf". -/
theorem sanitize_worked_examples :
    Sanitize "feature/new-ui" = "feature-new-ui" ∧
    Sanitize "evil; rm -rf /" = "evil-rm-rf" :=
  ⟨by decide, by decide⟩

/-- C8: the fallback selector with zero items fails with the no-items
error for every prompt and independently of any input; with exactly one
item it returns index 0, again for every prompt and independently of any
input (no I/O is consulted: the result does not depend on `input`). -/
theorem select_zero_and_one_item (prompt input x : String) :
    SelectWithPrompt [] prompt input = Except.error "no items to select from" ∧
    SelectWithPrompt [x] prompt input = Except.ok 0 :=
  ⟨rfl, rfl⟩

/-- C7: with at least two items, the fallback selector classifies the
trimmed input line in the source's order: "q", "Q" or the empty string is
a cancellation; input `strconv.Atoi` rejects is the generic invalid-input
failure; a parsed number outside [1, len(items)] is the out-of-range
failure; and a parsed number n in [1, len(items)] yields index n - 1. -/
theorem select_fallback_classification (items : List String)
    (prompt input : String) (h2 : 2 ≤ items.length) :
    ((goTrimSpace input) = "q" ∨ (goTrimSpace input) = "Q" ∨ (goTrimSpace input) = "" →
      SelectWithPrompt items prompt input = Except.error "selection cancelled") ∧
    (¬((goTrimSpace input) = "q" ∨ (goTrimSpace input) = "Q" ∨ (goTrimSpace input) = "") →
      atoi (goTrimSpace input) = none →
      SelectWithPrompt items prompt input =
        Except.error ("invalid input: " ++ (goTrimSpace input))) ∧
    (∀ n : Int, atoi (goTrimSpace input) = some n → (n < 1 ∨ n > (items.length : Int)) →
      SelectWithPrompt items prompt input =
        Except.error ("number out of range: " ++ toString n ++
          " (expected 1-" ++ toString items.length ++ ")")) ∧
    (∀ n : Int, atoi (goTrimSpace input) = some n → 1 ≤ n → n ≤ (items.length : Int) →
      SelectWithPrompt items prompt input = Except.ok (n - 1)) := by
  have h0 : ¬items.length = 0 := by omega
  have h1 : ¬items.length = 1 := by omega
  simp only [SelectWithPrompt, if_neg h0, if_neg h1]
  refine ⟨?_, ?_, ?_, ?_⟩
  · intro hc
    rw [if_pos hc]
  · intro hc hn
    rw [if_neg hc, hn]
  · intro n hn hrange
    have hc : ¬(goTrimSpace input = "q" ∨ goTrimSpace input = "Q" ∨ goTrimSpace input = "") := by
      rintro (h | h | h) <;> rw [h] at hn
      · rw [(by decide : atoi "q" = none)] at hn; exact Option.noConfusion hn
      · rw [(by decide : atoi "Q" = none)] at hn; exact Option.noConfusion hn
      · rw [(by decide : atoi "" = none)] at hn; exact Option.noConfusion hn
    rw [if_neg hc, hn]
    show (if n < 1 ∨ n > (items.length : Int) then
        Except.error ("number out of range: " ++ toString n ++
          " (expected 1-" ++ toString items.length ++ ")")
      else Except.ok (n - 1)) = _
    rw [if_pos hrange]
  · intro n hn hlo hhi
    have hc : ¬(goTrimSpace input = "q" ∨ goTrimSpace input = "Q" ∨ goTrimSpace input = "") := by
      rintro (h | h | h) <;> rw [h] at hn
      · rw [(by decide : atoi "q" = none)] at hn; exact Option.noConfusion hn
      · rw [(by decide : atoi "Q" = none)] at hn; exact Option.noConfusion hn
      · rw [(by decide : atoi "" = none)] at hn; exact Option.noConfusion hn
    rw [if_neg hc, hn]
    show (if n < 1 ∨ n > (items.length : Int) then
        Except.error ("number out of range: " ++ toString n ++
          " (expected 1-" ++ toString items.length ++ ")")
      else Except.ok (n - 1)) = _
    rw [if_neg (by omega : ¬(n < 1 ∨ n > (items.length : Int)))]

/-- Witness for `select_fallback_classification`: feeding "q" to the
fallback with two items yields the cancellation error. -/
theorem select_fallback_classification_witness :
    SelectWithPrompt ["a", "b"] "pick" "q\n" = Except.error "selection cancelled" :=
  (select_fallback_classification ["a", "b"] "pick" "q\n" (by decide)).1
    (Or.inl (by decide))

/-! ## Helper lemmas for the fzf selector lookup loop -/

/-- A successful lookup returns the index (offset by the accumulator `k`)
of the first item equal to the selected text. -/
theorem findSelected_spec (s : String) :
    ∀ (l : List String) (k i : Nat), findSelected s l k = some i →
      k ≤ i ∧ l[i - k]? = some s ∧ ∀ j, j < i - k → l[j]? ≠ some s := by
  intro l
  induction l with
  | nil => intro k i h; exact absurd h (by simp [findSelected])
  | cons item rest ih =>
    intro k i h
    by_cases hit : item = s
    · rw [findSelected, if_pos hit] at h
      injection h with h'
      subst h'
      refine ⟨Nat.le_refl _, ?_, ?_⟩
      · simp [hit]
      · intro j hj
        exact absurd hj (by omega)
    · rw [findSelected, if_neg hit] at h
      obtain ⟨hk, hget, hprev⟩ := ih (k + 1) i h
      refine ⟨by omega, ?_, ?_⟩
      · have he : i - k = (i - (k + 1)) + 1 := by omega
        rw [he, List.getElem?_cons_succ]
        exact hget
      · intro j hj
        cases j with
        | zero =>
          simp only [List.getElem?_cons_zero]
          intro heq
          exact hit (by injection heq)
        | succ j =>
          rw [List.getElem?_cons_succ]
          exact hprev j (by omega)

/-- When no item equals the selected text, the lookup loop fails. -/
theorem findSelected_none (s : String) :
    ∀ (l : List String) (k : Nat), (∀ item ∈ l, item ≠ s) →
      findSelected s l k = none := by
  intro l
  induction l with
  | nil => intro k _; rfl
  | cons item rest ih =>
    intro k h
    rw [findSelected, if_neg (h item (List.mem_cons_self item rest))]
    exact ih (k + 1) (fun x hx => h x (List.mem_cons_of_mem _ hx))

/-- C10: on a zero exit of the external program, the fzf selector returns
an index i only when the whitespace-trimmed stdout equals items[i] and no
earlier item equals it; empty trimmed stdout is the distinct
"no selection made" error, and a non-empty trimmed stdout matching no item
is the distinct "selected item not found in list" error. -/
theorem fzf_zero_exit_result (items : List String) (out : FzfOutcome)
    (hne : ¬items.length = 0) (hexit : out.exitCode = 0) :
    (∀ i, SelectWithFzf items out = Except.ok i →
      items[i]? = some (goTrimSpace out.stdout) ∧
      ∀ j, j < i → items[j]? ≠ some (goTrimSpace out.stdout)) ∧
    ((goTrimSpace out.stdout) = "" →
      SelectWithFzf items out = Except.error "no selection made") ∧
    ((goTrimSpace out.stdout) ≠ "" → (∀ item ∈ items, item ≠ (goTrimSpace out.stdout)) →
      SelectWithFzf items out = Except.error "selected item not found in list") := by
  simp only [SelectWithFzf, if_neg hne, hexit, ne_eq, not_true_eq_false,
    if_false]
  refine ⟨?_, ?_, ?_⟩
  · intro i hok
    by_cases hsel : (goTrimSpace out.stdout) = ""
    · rw [if_pos hsel] at hok
      exact absurd hok (by simp)
    · rw [if_neg hsel] at hok
      cases hfind : findSelected (goTrimSpace out.stdout) items 0 with
      | none => rw [hfind] at hok; exact absurd hok (by simp)
      | some m =>
        rw [hfind] at hok
        have hm : m = i := by injection hok
        subst hm
        obtain ⟨-, hget, hprev⟩ := findSelected_spec (goTrimSpace out.stdout) items 0 m hfind
        rw [Nat.sub_zero] at hget hprev
        exact ⟨hget, hprev⟩
  · intro h
    rw [if_pos h]
  · intro hsel hnone
    rw [if_neg hsel, findSelected_none (goTrimSpace out.stdout) items 0 hnone]

/-- Witness for `fzf_zero_exit_result`: two items, zero exit, stdout a
bare newline: the trimmed selection is empty and the call fails with
"no selection made". -/
theorem fzf_zero_exit_result_witness :
    SelectWithFzf ["a", "b"] ⟨0, "\n"⟩ = Except.error "no selection made" :=
  (fzf_zero_exit_result ["a", "b"] ⟨0, "\n"⟩ (by decide) rfl).2.1 (by decide)

/-- The loop body agrees with the spec's tier function pointwise. -/
theorem classify_eq_tierOf (q : String) (i : Nat) (item : String) :
    classify q i item =
      (tierOf q item).map (fun s => (⟨i, item, s⟩ : FilterItem)) := by
  simp only [classify, tierOf]
  split_ifs <;> rfl

/-- C3: for every candidate list and non-empty query, `FilterByQuery`
behaves exactly as the spec's rule order describes: lowercase both sides,
score each candidate by the first satisfied rule (exact 100, prefix 80,
substring 50), drop candidates satisfying none, and fail with the
no-matches error naming the query when nothing survives. -/
theorem filter_matches_spec_rules (items : List String) (query : String)
    (hq : query ≠ "") :
    FilterByQuery items query = filterSpecced items query := by
  simp only [FilterByQuery, filterSpecced, if_neg hq, classify_eq_tierOf]

/-- Witness for `filter_matches_spec_rules` on a concrete query. -/
theorem filter_matches_spec_rules_witness :
    ("feature" : String) ≠ "" ∧
    FilterByQuery ["main", "feature-login", "Feature-auth"] "feature" =
      filterSpecced ["main", "feature-login", "Feature-auth"] "feature" :=
  ⟨by decide, filter_matches_spec_rules _ _ (by decide)⟩

/-! ## Helper lemmas for survivor order -/

/-- The indices attached by `List.enum` are strictly increasing. -/
theorem pairwise_fst_enum (l : List String) :
    List.Pairwise (fun a b : Nat × String => a.1 < b.1) l.enum := by
  have h := List.pairwise_lt_range l.length
  rw [← List.enum_map_fst l] at h
  exact List.pairwise_map.1 h

/-- A surviving item keeps the index the loop gave it. -/
theorem classify_index (q : String) (i : Nat) (item : String)
    (it : FilterItem) (h : classify q i item = some it) : it.Index = i := by
  simp only [classify] at h
  split_ifs at h <;>
    first
      | (injection h with h'; rw [← h'])
      | exact Option.noConfusion h

/-- C4: survivors of `FilterByQuery` keep the input's relative order — the
sequence of original indices is strictly increasing, with no re-sorting
by tier — and the empty query returns every candidate, in original order,
each with tier 0. -/
theorem filter_preserves_input_order (items : List String) (query : String)
    (res : List FilterItem) (h : FilterByQuery items query = Except.ok res) :
    List.Pairwise (· < ·) (res.map FilterItem.Index) ∧
    (query = "" →
      res = items.enum.map (fun p => (⟨p.1, p.2, 0⟩ : FilterItem))) := by
  by_cases hq : query = ""
  · subst hq
    simp only [FilterByQuery, if_pos rfl] at h
    injection h with h'
    subst h'
    refine ⟨?_, fun _ => rfl⟩
    rw [List.map_map]
    rw [show (FilterItem.Index ∘ fun p : Nat × String =>
        (⟨p.1, p.2, 0⟩ : FilterItem)) = Prod.fst from rfl]
    rw [List.enum_map_fst]
    exact List.pairwise_lt_range items.length
  · simp only [FilterByQuery, if_neg hq] at h
    by_cases hm : (items.enum.filterMap
        (fun p => classify (goToLower query) p.1 p.2)).isEmpty
    · rw [if_pos hm] at h
      exact absurd h (by simp)
    · rw [if_neg hm] at h
      injection h with h'
      subst h'
      refine ⟨?_, fun hq' => absurd hq' hq⟩
      rw [List.pairwise_map]
      rw [List.pairwise_filterMap]
      refine (pairwise_fst_enum items).imp ?_
      intro a b hab it hit it' hit'
      rw [Option.mem_def] at hit hit'
      rw [classify_index (goToLower query) a.1 a.2 it hit,
        classify_index (goToLower query) b.1 b.2 it' hit']
      exact hab

/-- Witness for `filter_preserves_input_order` on the empty query. -/
theorem filter_preserves_input_order_witness :
    List.Pairwise (· < ·)
      (([⟨0, "a", 0⟩, ⟨1, "b", 0⟩] : List FilterItem).map FilterItem.Index) ∧
    ([⟨0, "a", 0⟩, ⟨1, "b", 0⟩] : List FilterItem) =
      (["a", "b"] : List String).enum.map
        (fun p => (⟨p.1, p.2, 0⟩ : FilterItem)) :=
  ⟨(filter_preserves_input_order ["a", "b"] ""
      [⟨0, "a", 0⟩, ⟨1, "b", 0⟩] rfl).1,
   (filter_preserves_input_order ["a", "b"] ""
      [⟨0, "a", 0⟩, ⟨1, "b", 0⟩] rfl).2 rfl⟩

/-! ## Helper lemmas for the sanitizer -/

/-- Every character emitted by the disallowed-run replacement is in the
allowed class (kept characters were allowed, runs become '-'). -/
theorem replaceInvalidRuns_allowed :
    ∀ (l : List Char) (b : Bool), ∀ c ∈ replaceInvalidRuns b l,
      isAllowedChar c = true := by
  intro l
  induction l with
  | nil => intro b c hc; simp [replaceInvalidRuns] at hc
  | cons d rest ih =>
    intro b c hc
    simp only [replaceInvalidRuns] at hc
    by_cases hd : isAllowedChar d
    · rw [if_pos hd] at hc
      rcases List.mem_cons.1 hc with h | h
      · rw [h]; exact hd
      · exact ih false c h
    · rw [if_neg hd] at hc
      cases b with
      | true =>
        simp only [if_pos rfl] at hc
        exact ih true c hc
      | false =>
        simp only [Bool.false_eq_true, if_neg, if_false] at hc
        rcases List.mem_cons.1 hc with h | h
        · rw [h]; decide
        · exact ih true c h

/-- On input of allowed characters only, the run replacement is the
identity. -/
theorem replaceInvalidRuns_id :
    ∀ (l : List Char) (b : Bool), (∀ c ∈ l, isAllowedChar c = true) →
      replaceInvalidRuns b l = l := by
  intro l
  induction l with
  | nil => intro b _; rfl
  | cons d rest ih =>
    intro b h
    have hd : isAllowedChar d = true := h d (List.mem_cons_self d rest)
    simp only [replaceInvalidRuns, if_pos hd]
    rw [ih false (fun c hc => h c (List.mem_cons_of_mem _ hc))]

/-- The hyphen collapse emits only characters of its input. -/
theorem collapseHyphens_subset :
    ∀ (l : List Char) (b : Bool), ∀ c ∈ collapseHyphens b l, c ∈ l := by
  intro l
  induction l with
  | nil => intro b c hc; simp [collapseHyphens] at hc
  | cons d rest ih =>
    intro b c hc
    simp only [collapseHyphens] at hc
    by_cases hd : d = '-'
    · rw [if_pos hd] at hc
      cases b with
      | true =>
        simp only [if_pos rfl] at hc
        exact List.mem_cons_of_mem _ (ih true c hc)
      | false =>
        simp only [Bool.false_eq_true, if_neg, if_false] at hc
        rcases List.mem_cons.1 hc with h | h
        · rw [h, ← hd]; exact List.mem_cons_self d rest
        · exact List.mem_cons_of_mem _ (ih true c h)
    · rw [if_neg hd] at hc
      rcases List.mem_cons.1 hc with h | h
      · rw [h]; exact List.mem_cons_self d rest
      · exact List.mem_cons_of_mem _ (ih false c h)

/-- Right after a hyphen was emitted, the collapse never emits another
hyphen first. -/
theorem collapseHyphens_true_head :
    ∀ l : List Char, ∀ a, (collapseHyphens true l).head? = some a →
      a ≠ '-' := by
  intro l
  induction l with
  | nil => intro a ha; exact absurd ha (by simp [collapseHyphens])
  | cons d rest ih =>
    intro a ha
    simp only [collapseHyphens] at ha
    by_cases hd : d = '-'
    · rw [if_pos hd] at ha
      simp only [if_true] at ha
      exact ih a ha
    · rw [if_neg hd] at ha
      simp only [List.head?_cons, Option.some.injEq] at ha
      rw [← ha]
      exact hd

/-- The collapse output has no two consecutive hyphens. -/
theorem collapseHyphens_chain :
    ∀ (l : List Char) (b : Bool), noDoubleHyphen (collapseHyphens b l) := by
  intro l
  induction l with
  | nil => intro b; simp [collapseHyphens]
  | cons d rest ih =>
    intro b
    simp only [collapseHyphens]
    by_cases hd : d = '-'
    · rw [if_pos hd]
      cases b with
      | true =>
        simp only [if_pos rfl]
        exact ih true
      | false =>
        simp only [Bool.false_eq_true, if_neg, if_false]
        refine List.chain'_cons'.2 ⟨?_, ih true⟩
        intro y hy
        rintro ⟨-, hy'⟩
        exact collapseHyphens_true_head rest y hy hy'
    · rw [if_neg hd]
      refine List.chain'_cons'.2 ⟨?_, ih false⟩
      intro y hy
      rintro ⟨hd', -⟩
      exact hd hd'

/-- When the head is not a hyphen, the collapse flag makes no
difference. -/
theorem collapseHyphens_true_eq_false :
    ∀ l : List Char, (∀ a, l.head? = some a → a ≠ '-') →
      collapseHyphens true l = collapseHyphens false l := by
  intro l h
  cases l with
  | nil => rfl
  | cons d rest =>
    have hd : d ≠ '-' := h d rfl
    simp only [collapseHyphens, if_neg hd]

/-- On input with no two consecutive hyphens, the collapse is the
identity. -/
theorem collapseHyphens_id :
    ∀ l : List Char, noDoubleHyphen l → collapseHyphens false l = l := by
  intro l
  induction l with
  | nil => intro _; rfl
  | cons d rest ih =>
    intro h
    obtain ⟨hhead, hrest⟩ := List.chain'_cons'.1 h
    by_cases hd : d = '-'
    · simp only [collapseHyphens, if_pos hd, Bool.false_eq_true, if_neg,
        if_false]
      have hne : ∀ a, rest.head? = some a → a ≠ '-' := by
        intro a ha ha'
        exact hhead a ha ⟨hd, ha'⟩
      rw [collapseHyphens_true_eq_false rest hne, ih hrest, hd]
    · simp only [collapseHyphens, if_neg hd]
      rw [ih hrest]

/-- The head of a `dropWhile` result falsifies the predicate. -/
theorem dropWhile_head_false (p : Char → Bool) (l : List Char) (a : Char)
    (h : (l.dropWhile p).head? = some a) : p a = false := by
  have hm := List.head?_dropWhile_not p l
  rw [h] at hm
  exact hm

/-- The function `dropWhile` is the identity when the head already falsifies the
predicate. -/
theorem dropWhile_id_of_head (p : Char → Bool) (l : List Char)
    (h : ∀ a, l.head? = some a → p a = false) : l.dropWhile p = l := by
  cases l with
  | nil => rfl
  | cons d rest =>
    exact List.dropWhile_cons_of_neg (by simp [h d rfl])

/-- The right trim is a prefix of its argument. -/
theorem trimHyphensRight_isPre (l : List Char) : trimHyphensRight l <+: l := by
  have hs := List.dropWhile_suffix (l := l.reverse) (fun c => c = '-')
  have := List.reverse_prefix.2 hs
  rwa [List.reverse_reverse] at this

/-- The right trim never ends in a hyphen. -/
theorem trimHyphensRight_getLast (l : List Char) (a : Char)
    (h : (trimHyphensRight l).getLast? = some a) : a ≠ '-' := by
  rw [trimHyphensRight, List.getLast?_eq_head?_reverse, List.reverse_reverse]
    at h
  have := dropWhile_head_false _ _ _ h
  simpa using this

/-- The right trim does not grow the list. -/
theorem trimHyphensRight_length (l : List Char) :
    (trimHyphensRight l).length ≤ l.length := by
  rw [trimHyphensRight, List.length_reverse]
  calc (l.reverse.dropWhile (fun c => c = '-')).length
      ≤ l.reverse.length :=
        (List.dropWhile_suffix _).sublist.length_le
    _ = l.length := List.length_reverse l

/-- The right trim is the identity when the last character is not a
hyphen. -/
theorem trimHyphensRight_id (l : List Char)
    (h : ∀ a, l.getLast? = some a → a ≠ '-') : trimHyphensRight l = l := by
  rw [trimHyphensRight, dropWhile_id_of_head, List.reverse_reverse]
  intro a ha
  rw [List.head?_reverse] at ha
  simpa using h a ha

/-- A non-empty prefix shares its head with the whole list. -/
theorem isPre_head (y x : List Char) (h : y <+: x) (hne : y ≠ []) :
    y.head? = x.head? := by
  obtain ⟨t, rfl⟩ := h
  cases y with
  | nil => exact absurd rfl hne
  | cons a ys => rfl

/-- The sanitizer's output invariants, on character lists: all characters
allowed, no leading or trailing hyphen, no two consecutive hyphens, and
length at most `maxLength`. -/
theorem sanitizeList_invariants (l : List Char) :
    (∀ c ∈ sanitizeList l, isAllowedChar c = true) ∧
    noDoubleHyphen (sanitizeList l) ∧
    (∀ a, (sanitizeList l).head? = some a → a ≠ '-') ∧
    (∀ a, (sanitizeList l).getLast? = some a → a ≠ '-') ∧
    (sanitizeList l).length ≤ maxLength := by
  simp only [sanitizeList, trimHyphens]
  have h3chain : noDoubleHyphen
      (collapseHyphens false (replaceInvalidRuns false (slashToHyphen l))) :=
    collapseHyphens_chain _ _
  have h3allowed : ∀ c ∈
      collapseHyphens false (replaceInvalidRuns false (slashToHyphen l)),
      isAllowedChar c = true :=
    fun c hc =>
      replaceInvalidRuns_allowed _ _ c (collapseHyphens_subset _ _ c hc)
  generalize
    collapseHyphens false (replaceInvalidRuns false (slashToHyphen l)) = s3
    at h3chain h3allowed ⊢
  have hs4_pre_m : trimHyphensRight (trimHyphensLeft s3) <+: trimHyphensLeft s3 :=
    trimHyphensRight_isPre _
  have hm_suffix : trimHyphensLeft s3 <:+ s3 := List.dropWhile_suffix _
  have hs4_within : trimHyphensRight (trimHyphensLeft s3) <:+: s3 :=
    hs4_pre_m.isInfix.trans hm_suffix.isInfix
  have h4allowed : ∀ c ∈ trimHyphensRight (trimHyphensLeft s3),
      isAllowedChar c = true :=
    fun c hc => h3allowed c (hs4_within.sublist.subset hc)
  have h4chain : noDoubleHyphen (trimHyphensRight (trimHyphensLeft s3)) :=
    h3chain.infix hs4_within
  have h4head : ∀ a, (trimHyphensRight (trimHyphensLeft s3)).head? = some a →
      a ≠ '-' := by
    intro a ha
    have hne : trimHyphensRight (trimHyphensLeft s3) ≠ [] := by
      intro h; rw [h] at ha; exact Option.noConfusion ha
    rw [isPre_head _ _ hs4_pre_m hne] at ha
    have hfd := dropWhile_head_false _ s3 a ha
    simpa using hfd
  have h4last : ∀ a,
      (trimHyphensRight (trimHyphensLeft s3)).getLast? = some a → a ≠ '-' :=
    fun a ha => trimHyphensRight_getLast _ a ha
  generalize hg4 : trimHyphensRight (trimHyphensLeft s3) = s4
    at h4allowed h4chain h4head h4last ⊢
  by_cases hlen : s4.length > maxLength
  · rw [if_pos hlen]
    have hr_pre : trimHyphensRight (s4.take maxLength) <+: s4.take maxLength :=
      trimHyphensRight_isPre _
    have hr_pre4 : trimHyphensRight (s4.take maxLength) <+: s4 :=
      hr_pre.trans (List.take_prefix _ _)
    refine ⟨?_, ?_, ?_, ?_, ?_⟩
    · exact fun c hc => h4allowed c (hr_pre4.sublist.subset hc)
    · exact h4chain.infix hr_pre4.isInfix
    · intro a ha
      have hne : trimHyphensRight (s4.take maxLength) ≠ [] := by
        intro h; rw [h] at ha; exact Option.noConfusion ha
      rw [isPre_head _ _ hr_pre4 hne] at ha
      exact h4head a ha
    · exact fun a ha => trimHyphensRight_getLast _ a ha
    · calc (trimHyphensRight (s4.take maxLength)).length
          ≤ (s4.take maxLength).length := trimHyphensRight_length _
        _ ≤ maxLength := by
            rw [List.length_take]; exact Nat.min_le_left _ _
  · rw [if_neg hlen]
    exact ⟨h4allowed, h4chain, h4head, h4last, Nat.le_of_not_lt hlen⟩

/-- C2: for every input string, every character of the sanitized result is
in the class `[A-Za-z0-9._-]`, the result has no leading hyphen, no
trailing hyphen, no occurrence of the substring "--", and its length is at
most 200; no input (the empty string included) is an error. -/
theorem sanitize_charset_invariant (x : String) :
    (∀ c ∈ (Sanitize x).data, isAllowedChar c = true) ∧
    (Sanitize x).data.head? ≠ some '-' ∧
    (Sanitize x).data.getLast? ≠ some '-' ∧
    ¬(['-', '-'] <:+: (Sanitize x).data) ∧
    (Sanitize x).length ≤ 200 := by
  obtain ⟨hall, hchain, hhead, hlast, hlen⟩ := sanitizeList_invariants x.data
  refine ⟨hall, ?_, ?_, ?_, hlen⟩
  · intro h
    exact hhead '-' h rfl
  · intro h
    exact hlast '-' h rfl
  · intro hinf
    have hc := hchain.infix hinf
    exact (List.chain'_pair.1 hc) ⟨rfl, rfl⟩

/-- No allowed character is a slash, so the slash replacement is the
identity on sanitized output. -/
theorem slashToHyphen_id (l : List Char)
    (h : ∀ c ∈ l, isAllowedChar c = true) : slashToHyphen l = l := by
  induction l with
  | nil => rfl
  | cons d rest ih =>
    have hd : d ≠ '/' := by
      intro hd
      rw [hd] at h
      exact absurd (h '/' (List.mem_cons_self _ _)) (by decide)
    simp only [slashToHyphen, List.map_cons, if_neg hd]
    have := ih (fun c hc => h c (List.mem_cons_of_mem _ hc))
    simp only [slashToHyphen] at this
    rw [this]

/-- The left trim is the identity when the head is not a hyphen. -/
theorem trimHyphensLeft_id (l : List Char)
    (h : ∀ a, l.head? = some a → a ≠ '-') : trimHyphensLeft l = l := by
  rw [trimHyphensLeft, dropWhile_id_of_head]
  intro a ha
  simpa using h a ha

/-- The whole pipeline is the identity on lists already satisfying the
sanitizer's invariants. -/
theorem sanitizeList_id (r : List Char)
    (hall : ∀ c ∈ r, isAllowedChar c = true)
    (hchain : noDoubleHyphen r)
    (hhead : ∀ a, r.head? = some a → a ≠ '-')
    (hlast : ∀ a, r.getLast? = some a → a ≠ '-')
    (hlen : r.length ≤ maxLength) : sanitizeList r = r := by
  simp only [sanitizeList, trimHyphens]
  rw [slashToHyphen_id r hall, replaceInvalidRuns_id r false hall,
    collapseHyphens_id r hchain, trimHyphensLeft_id r hhead,
    trimHyphensRight_id r hlast,
    if_neg (Nat.not_lt.2 hlen)]

/-- C6: the sanitizer is idempotent: sanitizing a sanitized name changes
nothing. -/
theorem sanitize_idempotent (x : String) :
    Sanitize (Sanitize x) = Sanitize x := by
  obtain ⟨hall, hchain, hhead, hlast, hlen⟩ := sanitizeList_invariants x.data
  show String.mk (sanitizeList (sanitizeList x.data)) = Sanitize x
  rw [sanitizeList_id (sanitizeList x.data) hall hchain hhead hlast hlen]
  rfl
